import Mathlib

/-!
Verification of the MapReduce tweet-analytics pipeline.

The development shallowly embeds the pipeline's pure per-record and
per-collection computations:

* `analyze_sentiment` / `get_sentiment_label` — the keyword sentiment
  analyzer (`analyse-sentiment.py`, class `SimpleSentimentAnalyzer`);
* `clean_hashtag` / `reduce_hashtags` — hashtag normalization and the
  monthly top-10 hashtag aggregation (`hastag-tendance.py`);
* `extract_location_info` / `map_geographic_data` /
  `analyze_themes_by_region` — the geographic classifier and theme
  aggregation (`distribution-geo.py`);
* `mapper_process_tweet` and `reducer_process` — the per-record part of
  the streaming adapter (`mapper.py`, `reducer.py`).

Python strings are modelled as `String` / `List Char` (ASCII-faithful),
Python numbers as `ℚ`/`ℤ`/`ℕ` with exact arithmetic, Python `None`
results as `Option`, and Python dicts keyed in insertion order as
association lists built in first-encounter order.
-/

/-! ### Python string primitives -/

/-- Characters stripped by Python `str.strip()` (ASCII whitespace). -/
def pyIsSpace (c : Char) : Bool :=
  c = ' ' || c = '\t' || c = '\n' || c = '\r' || c = '\x0b' || c = '\x0c'

/-- Python `str.strip()`: drop leading and trailing whitespace. -/
def pyStrip (l : List Char) : List Char :=
  ((l.dropWhile pyIsSpace).reverse.dropWhile pyIsSpace).reverse

/-- Python `str.lower()` (ASCII). -/
def pyLower (l : List Char) : List Char :=
  l.map Char.toLower

/-- A character matched by the regex class `\w` (ASCII). -/
def isWordChar (c : Char) : Bool :=
  c.isAlphanum || c = '_'

/-- Accumulator pass for `wordRuns`: `run` is the current (reversed) run of
word characters. -/
def wordRunsAux : List Char → List Char → List (List Char)
  | run, [] => if run = [] then [] else [run.reverse]
  | run, c :: cs =>
    if isWordChar c then wordRunsAux (c :: run) cs
    else if run = [] then wordRunsAux [] cs
    else run.reverse :: wordRunsAux [] cs

/-- The maximal runs of `\w` characters of a string: `re.findall(r'\b\w+\b', text)`. -/
def wordRuns (l : List Char) : List (List Char) := wordRunsAux [] l

/-- Whether `needle` is a prefix of `haystack` (computable). -/
def listStartsWith : List Char → List Char → Bool
  | [], _ => true
  | _ :: _, [] => false
  | a :: as, b :: bs => a = b && listStartsWith as bs

/-- Python `needle in haystack` on strings: substring containment. -/
def hasSub (needle : List Char) : List Char → Bool
  | [] => listStartsWith needle []
  | c :: rest => listStartsWith needle (c :: rest) || hasSub needle rest

/-! ### Sentiment analyzer (`analyse-sentiment.py`, `SimpleSentimentAnalyzer`) -/

/-- The analyzer's fixed positive-word set. -/
def positive_words : List String :=
  ["good", "great", "excellent", "amazing", "awesome", "fantastic",
   "wonderful", "brilliant", "perfect", "love", "best", "incredible",
   "outstanding", "remarkable", "superb", "marvelous", "exciting",
   "revolutionizing", "successful", "future", "exciting"]

/-- The analyzer's fixed negative-word set. -/
def negative_words : List String :=
  ["bad", "terrible", "awful", "horrible", "worst", "hate", "disgusting",
   "pathetic", "useless", "boring", "disappointing", "frustrating",
   "annoying", "broken", "failed", "error", "problem", "issue"]

/-- The analyzer's fixed intensifier set. -/
def intensifiers : List String :=
  ["very", "extremely", "really", "totally", "completely", "absolutely",
   "quite", "rather", "pretty", "so", "too"]

/-- Tokenization used by `analyze_sentiment`: lowercase, then word runs. -/
def tokenize (text : String) : List String :=
  (wordRuns (pyLower text.data)).map String.mk

/-- The weight `1.5 if i > 0 and words[i-1] in self.intensifiers else 1.0`,
expressed through the token preceding the current one (`none` at index 0). -/
def intensifier_weight (prev : Option String) : ℚ :=
  match prev with
  | some p => if p ∈ intensifiers then 3/2 else 1
  | none => 1

/-- The scoring loop of `analyze_sentiment`: accumulates the weighted
positive and negative scores, threading the previous token. -/
def sentiment_loop : Option String → List String → ℚ × ℚ
  | _, [] => (0, 0)
  | prev, w :: ws =>
    let wt := intensifier_weight prev
    let rest := sentiment_loop (some w) ws
    if w ∈ positive_words then (rest.1 + wt, rest.2)
    else if w ∈ negative_words then (rest.1, rest.2 + wt)
    else rest

/-- `SimpleSentimentAnalyzer.analyze_sentiment`. -/
def analyze_sentiment (text : String) : ℚ :=
  if text = "" then 0
  else
    let words := tokenize text
    let scores := sentiment_loop none words
    let total_words := words.length
    if total_words = 0 then 0
    else
      let positive_normalized := scores.1 / total_words
      let negative_normalized := scores.2 / total_words
      max (-1) (min 1 (positive_normalized - negative_normalized))

/-- `SimpleSentimentAnalyzer.get_sentiment_label`. -/
def get_sentiment_label (score : ℚ) : String :=
  if score > 1/10 then "positive"
  else if score < -(1/10) then "negative"
  else "neutral"

/-! ### Hashtag normalization and aggregation (`hastag-tendance.py`) -/

/-- The body of `HashtagMapper.map_hashtags`' cleaning step:
`hashtag.strip().lower()`, then one leading `'#'` removed if present. -/
def clean_hashtag (hashtag : List Char) : List Char :=
  match pyLower (pyStrip hashtag) with
  | [] => []
  | c :: rest => if c = '#' then rest else c :: rest

/-- The distinct elements of a list in order of first occurrence: the key
order of a Python dict/`Counter` filled by iterating the list. -/
def firstOccurrencesAux {α : Type} [DecidableEq α] : List α → List α → List α
  | _, [] => []
  | seen, x :: xs =>
    if x ∈ seen then firstOccurrencesAux seen xs
    else x :: firstOccurrencesAux (x :: seen) xs

/-- The distinct elements of a list in order of first occurrence, skipping
the ones already `seen`. -/
def firstOccurrences {α : Type} [DecidableEq α] (l : List α) : List α :=
  firstOccurrencesAux [] l

/-- Python `Counter(l).items()`: each distinct element with its number of
occurrences, in first-occurrence order. -/
def counterItems {α : Type} [DecidableEq α] (l : List α) : List (α × ℕ) :=
  (firstOccurrences l).map (fun x => (x, l.count x))

/-- One step of a stable descending insertion sort by `key`: the new element
goes after every element whose key is at least as large. -/
def insertDescBy {α β : Type} [LinearOrder β] (key : α → β) (x : α) : List α → List α
  | [] => [x]
  | y :: ys => if key x ≤ key y then y :: insertDescBy key x ys else x :: y :: ys

/-- Stable sort by `key`, descending — the observable behaviour of Python's
`sorted(..., key=key, reverse=True)` and `heapq.nlargest`. -/
def sortDescBy {α β : Type} [LinearOrder β] (key : α → β) (l : List α) : List α :=
  l.foldl (fun acc x => insertDescBy key x acc) []

/-- Python `Counter(l).most_common(n)`: occurrence counts sorted by count
descending, ties kept in first-occurrence order, truncated to `n`. -/
def most_common {α : Type} [DecidableEq α] (n : ℕ) (l : List α) : List (α × ℕ) :=
  (sortDescBy (fun p => p.2) (counterItems l)).take n

/-- The `defaultdict(list)` grouping of `(month, hashtag)` pairs by month:
months in first-encounter order, each with its hashtags in input order. -/
def group_by_month (mapped : List (String × String)) : List (String × List String) :=
  (firstOccurrences (mapped.map Prod.fst)).map
    (fun m => (m, (mapped.filter (fun e => e.1 = m)).map Prod.snd))

/-- `HashtagReducer.reduce_hashtags`: per month, the top 10 hashtags. -/
def reduce_hashtags (mapped : List (String × String)) :
    List (String × List (String × ℕ)) :=
  (group_by_month mapped).map (fun g => (g.1, most_common 10 g.2))

/-! ### Timestamp parsing -/

/-- Numeric value of a decimal digit character. -/
def digitVal (c : Char) : ℕ := c.toNat - 48

/-- Value of a run of decimal digit characters. -/
def readDigits (l : List Char) : ℕ :=
  l.foldl (fun acc c => acc * 10 + digitVal c) 0

/-- A strptime numeric field: greedily match 1 to `maxw` digits. -/
def takeNumField (maxw : ℕ) (l : List Char) : Option (ℕ × List Char) :=
  let run := l.takeWhile Char.isDigit
  if run.length = 0 || maxw < run.length then none
  else some (readDigits run, l.dropWhile Char.isDigit)

/-- Gregorian leap-year rule. -/
def isLeap (y : ℕ) : Bool := (y % 4 = 0 && y % 100 ≠ 0) || y % 400 = 0

/-- Number of days of month `m` in year `y`. -/
def daysInMonth (y m : ℕ) : ℕ :=
  if m = 2 then (if isLeap y then 29 else 28)
  else if m = 4 || m = 6 || m = 9 || m = 11 then 30
  else 31

/-- Consume one expected literal character. -/
def expectChar (c : Char) : List Char → Option (List Char)
  | [] => none
  | d :: rest => if d = c then some rest else none

/-- `datetime.strptime(s, '%Y-%m-%d %H:%M:%S')`, reduced to the `(year, month)`
pair the analyses use; the whole string must match and the date must be
calendar-valid. -/
def parse_ymd_hms (s : String) : Option (ℕ × ℕ) := do
  let (y, r) ← takeNumField 4 s.data
  let r ← expectChar '-' r
  let (mo, r) ← takeNumField 2 r
  let r ← expectChar '-' r
  let (d, r) ← takeNumField 2 r
  let r ← expectChar ' ' r
  let (h, r) ← takeNumField 2 r
  let r ← expectChar ':' r
  let (mi, r) ← takeNumField 2 r
  let r ← expectChar ':' r
  let (sec, r) ← takeNumField 2 r
  if r = [] && 1 ≤ y && 1 ≤ mo && mo ≤ 12 && 1 ≤ d && d ≤ daysInMonth y mo
      && h ≤ 23 && mi ≤ 59 && sec ≤ 59 then
    some (y, mo)
  else none

/-- The month key `f"{dt.year}-{dt.month:02d}"` (also `dt.strftime('%Y-%m')`
for the four-digit years of the corpus). -/
def format_ym (y mo : ℕ) : String :=
  toString y ++ "-" ++ (if mo < 10 then "0" ++ toString mo else toString mo)

/-! ### Record structures -/

/-- A post's location object: `city` plus `coordinates`.  Coordinate scalars
are carried by their decimal literal text (their numeric value is never
computed with). -/
structure GeoLocation where
  city : String
  coordinates : List String
deriving DecidableEq

/-- A social-media record as the local analyses read it; a missing field is
the corresponding `.get` default. -/
structure Tweet where
  timestamp : String := ""
  tweet_text : String := ""
  hashtags : List String := []
  location : Option GeoLocation := none
deriving DecidableEq

/-- `HashtagMapper.map_hashtags`: `(month, cleaned hashtag)` pairs, or `[]`
when the timestamp or hashtag list is missing or the timestamp unparseable. -/
def map_hashtags (tweet : Tweet) : List (String × String) :=
  if tweet.timestamp = "" || tweet.hashtags = [] then []
  else
    match parse_ymd_hms tweet.timestamp with
    | none => []
    | some (y, mo) =>
      let month_key := format_ym y mo
      tweet.hashtags.filterMap (fun h =>
        let c := clean_hashtag h.data
        if c = [] then none else some (month_key, String.mk c))

/-! ### Geographic classifier (`distribution-geo.py`, `GeographicMapper`) -/

/-- The fixed city-to-country table. -/
def city_to_country : List (String × String) :=
  [("paris", "France"), ("london", "United Kingdom"), ("new york", "United States"),
   ("tokyo", "Japan"), ("berlin", "Germany"), ("madrid", "Spain"), ("rome", "Italy"),
   ("amsterdam", "Netherlands"), ("brussels", "Belgium"), ("vienna", "Austria"),
   ("zurich", "Switzerland"), ("stockholm", "Sweden"), ("oslo", "Norway"),
   ("helsinki", "Finland"), ("copenhagen", "Denmark"), ("dublin", "Ireland"),
   ("lisbon", "Portugal"), ("athens", "Greece"), ("warsaw", "Poland"),
   ("prague", "Czech Republic"), ("budapest", "Hungary"), ("bucharest", "Romania"),
   ("sofia", "Bulgaria"), ("zagreb", "Croatia"), ("ljubljana", "Slovenia"),
   ("bratislava", "Slovakia"), ("vilnius", "Lithuania"), ("riga", "Latvia"),
   ("tallinn", "Estonia")]

/-- The fixed theme-to-keywords table, in dict insertion order. -/
def tech_themes : List (String × List String) :=
  [("ai", ["ai", "artificial intelligence", "machinelearning", "ml"]),
   ("bigdata", ["bigdata", "hadoop", "spark", "analytics"]),
   ("cloud", ["cloud", "cloudcomputing", "aws", "azure"]),
   ("blockchain", ["blockchain", "crypto", "bitcoin"]),
   ("iot", ["iot", "internet of things", "sensors"]),
   ("datascience", ["datascience", "data science", "analytics"]),
   ("programming", ["python", "java", "javascript", "coding"]),
   ("mapreduce", ["mapreduce", "distributed computing"])]

/-- One step of Python `str.title()`: uppercase a letter that follows a
non-letter, lowercase a letter that follows a letter. -/
def pyTitleAux : Bool → List Char → List Char
  | _, [] => []
  | prevAlpha, c :: cs =>
    (if c.isAlpha then (if prevAlpha then c.toLower else c.toUpper) else c) ::
      pyTitleAux c.isAlpha cs

/-- Python `str.title()` (ASCII). -/
def pyTitle (l : List Char) : List Char := pyTitleAux false l

/-- The payload built by `extract_location_info`. -/
structure LocationInfo where
  city : String
  country : String
  coordinates : List String
deriving DecidableEq

/-- `GeographicMapper.extract_location_info`: `none` when the location is
missing or the normalized city name is empty. -/
def extract_location_info (tweet : Tweet) : Option LocationInfo :=
  match tweet.location with
  | none => none
  | some location =>
    let city := pyStrip (pyLower location.city.data)
    if city = [] then none
    else
      some ⟨String.mk (pyTitle city),
            (city_to_country.lookup (String.mk city)).getD "Unknown",
            location.coordinates⟩

/-- Separator-joined concatenation: Python `sep.join(parts)`. -/
def joinWith (sep : List Char) : List (List Char) → List Char
  | [] => []
  | [x] => x
  | x :: xs => x ++ sep ++ joinWith sep xs

/-- `GeographicMapper.extract_themes`: keyword-substring matching over the
lowercased text joined with the dehashed lowercased hashtags. -/
def extract_themes (tweet : Tweet) : List String :=
  let text := pyLower tweet.tweet_text.data
  let hashtags := tweet.hashtags.map (fun h => (pyLower h.data).filter (fun c => c ≠ '#'))
  let content := text ++ ' ' :: joinWith [' '] hashtags
  let themes := (tech_themes.filter
    (fun tk => tk.2.any (fun kw => hasSub kw.data content))).map Prod.fst
  if themes = [] then ["general"] else themes

/-- First `n` characters plus a truncation marker when longer: the
`text[:n] + "..." if len(text) > n else text` previews. -/
def text_preview (n : ℕ) (t : String) : String :=
  if n < t.length then String.mk (t.data.take n) ++ "..." else t

/-- The payload built by `map_geographic_data`. -/
structure GeoPayload where
  location : LocationInfo
  themes : List String
  month : String
  tweet_text : String
deriving DecidableEq

/-- `GeographicMapper.map_geographic_data`. -/
def map_geographic_data (tweet : Tweet) : Option GeoPayload :=
  match extract_location_info tweet with
  | none => none
  | some location_info =>
    let themes := extract_themes tweet
    let date_key := match parse_ymd_hms tweet.timestamp with
      | some (y, mo) => format_ym y mo
      | none => "unknown"
    some ⟨location_info, themes, date_key, text_preview 100 tweet.tweet_text⟩

/-! ### Geographic theme aggregation (`GeographicReducer._analyze_themes_by_region`) -/

/-- Round half to even, Python `round`'s integer rule. -/
def pyRoundHalfEven (x : ℚ) : ℤ :=
  let f := ⌊x⌋
  if x - f < 1/2 then f
  else if (1 : ℚ)/2 < x - f then f + 1
  else if f % 2 = 0 then f else f + 1

/-- Python `round(x, nd)` over exact rationals. -/
def pyRound (x : ℚ) (nd : ℕ) : ℚ :=
  (pyRoundHalfEven (x * 10 ^ nd) : ℚ) / 10 ^ nd

/-- One regional-specialty entry. -/
structure Specialty where
  theme : String
  local_percentage : ℚ
  global_percentage : ℚ
  over_representation : ℚ
deriving DecidableEq

/-- The result of `_analyze_themes_by_region`. -/
structure ThemeAnalysis where
  global_themes : List (String × ℕ)
  regional_specialties : List (String × List Specialty)
deriving DecidableEq

/-- The inner loop of `_analyze_themes_by_region` for one country: themes
locally over-represented by more than 1.5x with local count at least 2,
sorted by over-representation ratio descending. -/
def specialties_for (all_themes : List String) (themes : List String) : List Specialty :=
  let total_country_tweets := themes.length
  let specialties := (counterItems themes).filterMap (fun tc =>
    let local_percentage : ℚ := (tc.2 : ℚ) / total_country_tweets
    let global_percentage : ℚ := (all_themes.count tc.1 : ℚ) / all_themes.length
    if local_percentage > global_percentage * (3/2) ∧ 2 ≤ tc.2 then
      some ⟨tc.1, pyRound (local_percentage * 100) 1, pyRound (global_percentage * 100) 1,
            pyRound (local_percentage / global_percentage) 2⟩
    else none)
  sortDescBy (fun sp => sp.over_representation) specialties

/-- `GeographicReducer._analyze_themes_by_region` (the city-keyed argument is
unused by the source too). -/
def analyze_themes_by_region (themes_by_country : List (String × List String))
    (_themes_by_city : List (String × List String)) : ThemeAnalysis :=
  let all_themes := (themes_by_country.map Prod.snd).flatten
  let regional := themes_by_country.filterMap (fun ct =>
    if ct.2.length = 0 then none
    else some (ct.1, specialties_for all_themes ct.2))
  ⟨most_common 10 all_themes, regional⟩

/-! ### Streaming mapper (`mapper.py`) -/

/-- `created_at.replace('Z', '+00:00')`. -/
def replaceZ : List Char → List Char
  | [] => []
  | c :: cs =>
    (if c = 'Z' then ['+', '0', '0', ':', '0', '0'] else [c]) ++ replaceZ cs

/-- Two adjacent digit characters. -/
def twoDigits : List Char → Option (ℕ × List Char)
  | a :: b :: rest =>
    if a.isDigit && b.isDigit then some (readDigits [a, b], rest) else none
  | _ => none

/-- The strict `YYYY-MM-DD` head of `datetime.fromisoformat`'s input. -/
def parse_iso_date : List Char → Option (ℕ × ℕ × ℕ × List Char)
  | y1 :: y2 :: y3 :: y4 :: '-' :: m1 :: m2 :: '-' :: d1 :: d2 :: rest =>
    if [y1, y2, y3, y4, m1, m2, d1, d2].all Char.isDigit then
      some (readDigits [y1, y2, y3, y4], readDigits [m1, m2], readDigits [d1, d2], rest)
    else none
  | _ => none

/-- An optional ISO fractional-seconds part (3 or 6 digits). -/
def parse_frac (l : List Char) : Option (List Char) :=
  match l with
  | '.' :: rest =>
    let digs := rest.takeWhile Char.isDigit
    if digs.length = 3 || digs.length = 6 then some (rest.dropWhile Char.isDigit)
    else none
  | _ => some l

/-- An ISO time `HH[:MM[:SS[.fff[fff]]]]`. -/
def parse_iso_hms (l : List Char) : Option (ℕ × ℕ × ℕ × List Char) := do
  let (h, r) ← twoDigits l
  match r with
  | ':' :: r2 => do
    let (mi, r3) ← twoDigits r2
    match r3 with
    | ':' :: r4 => do
      let (s, r5) ← twoDigits r4
      let r6 ← parse_frac r5
      pure (h, mi, s, r6)
    | _ => pure (h, mi, 0, r3)
  | _ => pure (h, 0, 0, r)

/-- An optional ISO UTC-offset tail. -/
def parse_iso_offset (l : List Char) : Bool :=
  match l with
  | [] => true
  | sign :: rest =>
    (sign = '+' || sign = '-') &&
      (match parse_iso_hms rest with
       | some (_, _, _, r) => r.isEmpty
       | none => false)

/-- `datetime.fromisoformat`, reduced to the `(year, month)` pair the mapper
uses; date part is strict `YYYY-MM-DD`, then an arbitrary one-character
separator and a time with optional fraction and offset. -/
def fromisoformat (s : String) : Option (ℕ × ℕ) := do
  let (y, mo, d, rest) ← parse_iso_date s.data
  let ok ← match rest with
    | [] => some true
    | _sep :: timepart =>
      match parse_iso_hms timepart with
      | some (h, mi, sec, r) =>
        if h ≤ 23 && mi ≤ 59 && sec ≤ 59 && parse_iso_offset r then some true else none
      | none => none
  if ok && 1 ≤ y && 1 ≤ mo && mo ≤ 12 && 1 ≤ d && d ≤ daysInMonth y mo then
    some (y, mo)
  else none

/-- Whitespace-separated tokens of a string (Python `str.split()`-style, as
strptime treats the blanks of `'%a %b %d %H:%M:%S %z %Y'`). -/
def splitWsAux : List Char → List Char → List (List Char)
  | run, [] => if run = [] then [] else [run.reverse]
  | run, c :: cs =>
    if pyIsSpace c then
      (if run = [] then splitWsAux [] cs else run.reverse :: splitWsAux [] cs)
    else splitWsAux (c :: run) cs

/-- The whitespace-separated tokens, via an accumulated current token. -/
def splitWs (l : List Char) : List (List Char) := splitWsAux [] l

/-- strptime `%a` day-name abbreviations (matched case-insensitively). -/
def weekday_abbrs : List String :=
  ["mon", "tue", "wed", "thu", "fri", "sat", "sun"]

/-- strptime `%b` month-name abbreviations (matched case-insensitively). -/
def month_abbrs : List String :=
  ["jan", "feb", "mar", "apr", "may", "jun", "jul", "aug", "sep", "oct", "nov", "dec"]

/-- A numeric token that must be consumed entirely. -/
def numToken (maxw : ℕ) (l : List Char) : Option ℕ :=
  match takeNumField maxw l with
  | some (n, []) => some n
  | _ => none

/-- A `%H:%M:%S` token with 1-2 digit fields. -/
def parse_time_token (l : List Char) : Option (ℕ × ℕ × ℕ) := do
  let (h, r) ← takeNumField 2 l
  let r ← expectChar ':' r
  let (mi, r) ← takeNumField 2 r
  let r ← expectChar ':' r
  let (s, r) ← takeNumField 2 r
  if r = [] then some (h, mi, s) else none

/-- A strptime `%z` token: `Z` or a sign plus `HHMM[SS]` digits. -/
def parse_tz_token (l : List Char) : Bool :=
  match l with
  | ['Z'] => true
  | sign :: rest =>
    (sign = '+' || sign = '-') && (rest.length = 4 || rest.length = 6) &&
      rest.all Char.isDigit
  | _ => false

/-- `datetime.strptime(s, '%a %b %d %H:%M:%S %z %Y')` — the legacy Twitter
`created_at` format — reduced to the `(year, month)` pair. -/
def parse_twitter_format (s : String) : Option (ℕ × ℕ) :=
  match splitWs s.data with
  | [wd, mon, dd, time, tz, yy] =>
    if (String.mk (pyLower wd)) ∈ weekday_abbrs
        && (String.mk (pyLower mon)) ∈ month_abbrs && parse_tz_token tz then
      let mo := month_abbrs.indexOf (String.mk (pyLower mon)) + 1
      match numToken 2 dd, parse_time_token time, numToken 4 yy with
      | some d, some (h, mi, sec), some y =>
        if 1 ≤ y && 1 ≤ d && d ≤ daysInMonth y mo && h ≤ 23 && mi ≤ 59 && sec ≤ 59 then
          some (y, mo)
        else none
      | _, _, _ => none
    else none
  | _ => none

/-- The period key of `mapper_combined`: an ISO parse when the string
contains `'T'`, otherwise the legacy Twitter format, with the hardcoded
fallback `'2024-01'` when missing or unparseable. -/
def mapper_month_key (created_at : String) : String :=
  if created_at = "" then "2024-01"
  else
    let parsed :=
      if created_at.data.contains 'T' then fromisoformat (String.mk (replaceZ created_at.data))
      else parse_twitter_format created_at
    match parsed with
    | some (y, mo) => format_ym y mo
    | none => "2024-01"

/-- An entry of a record's `hashtags` array as the streaming mapper reads it:
either a dict with a `text` field or a plain value used via `str(tag)`. -/
inductive HashtagItem where
  | dict (text : String)
  | plain (s : String)
deriving DecidableEq

/-- A record as the streaming mapper reads it. -/
structure StreamTweet where
  tweet_text : String := ""
  text : String := ""
  full_text : String := ""
  timestamp : String := ""
  created_at : String := ""
  hashtags : List HashtagItem := []
  location : Option GeoLocation := none
deriving DecidableEq

/-- Python `a or b` on strings: the first non-empty one. -/
def str_or (a b : String) : String := if a ≠ "" then a else b

/-- The mapper's positive-word list (substring matched). -/
def mapper_positive_words : List String :=
  ["good", "great", "excellent", "amazing", "wonderful", "fantastic",
   "awesome", "perfect", "love", "best", "happy", "nice"]

/-- The mapper's negative-word list (substring matched). -/
def mapper_negative_words : List String :=
  ["bad", "terrible", "awful", "horrible", "worst", "hate", "sad", "angry",
   "disappointed", "poor", "fail", "sucks"]

/-- Scanner state for `find_hashtag_matches`: `some run` when inside a
candidate match (the reversed word characters seen after the `'#'`). -/
def findTagsAux : Option (List Char) → List Char → List (List Char)
  | none, [] => []
  | some run, [] => if run = [] then [] else [('#' :: run.reverse)]
  | none, c :: cs => if c = '#' then findTagsAux (some []) cs else findTagsAux none cs
  | some run, c :: cs =>
    if isWordChar c then findTagsAux (some (c :: run)) cs
    else
      (if run = [] then ([] : List (List Char)) else [('#' :: run.reverse)]) ++
        (if c = '#' then findTagsAux (some []) cs else findTagsAux none cs)

/-- `re.findall(r'#\w+', text)`: non-overlapping leftmost-longest matches. -/
def find_hashtag_matches (l : List Char) : List (List Char) := findTagsAux none l

/-- A 4-field tab-separated output line. -/
def tab4 (a b c d : String) : String :=
  a ++ "\t" ++ b ++ "\t" ++ c ++ "\t" ++ d

/-- The per-record body of `mapper_combined`: the lines emitted for one
record under the given (already lowercased) `ANALYSIS_TYPE`. -/
def mapper_process_tweet (analysis_type : String) (tweet : StreamTweet) : List String :=
  let text := str_or tweet.tweet_text (str_or tweet.text tweet.full_text)
  if text = "" then []
  else
    let month_key := mapper_month_key (str_or tweet.timestamp tweet.created_at)
    if analysis_type = "hashtags" then
      if tweet.hashtags ≠ [] then
        tweet.hashtags.map (fun tag =>
          let hashtag_text := match tag with
            | .dict t => String.mk (pyLower t.data)
            | .plain v => String.mk (pyLower v.data)
          tab4 "HASHTAG" month_key ("#" ++ hashtag_text) "1")
      else
        (find_hashtag_matches (pyLower text.data)).map (fun tag =>
          tab4 "HASHTAG" month_key (String.mk tag) "1")
    else if analysis_type = "sentiment" then
      let text_lower := pyLower text.data
      let positive_count :=
        (mapper_positive_words.filter (fun w => hasSub w.data text_lower)).length
      let negative_count :=
        (mapper_negative_words.filter (fun w => hasSub w.data text_lower)).length
      let sentiment :=
        if negative_count < positive_count then "positive"
        else if positive_count < negative_count then "negative"
        else "neutral"
      [tab4 "SENTIMENT" month_key sentiment "1"]
    else if analysis_type = "geography" then
      let city := match tweet.location with | some li => li.city | none => ""
      let coords := match tweet.location with | some li => li.coordinates | none => []
      (if city ≠ "" then
        [tab4 "LOCATION" month_key (String.mk ((pyStrip city.data).take 50)) "1"]
      else []) ++
      (if 2 ≤ coords.length then
        [tab4 "COORDINATES" month_key (coords.getD 0 "" ++ "," ++ coords.getD 1 "") "1"]
      else [])
    else []

/-- `mapper_combined` over a decoded batch of records. -/
def mapper_combined (analysis_type : String) (tweets : List StreamTweet) : List String :=
  (tweets.map (mapper_process_tweet analysis_type)).flatten

/-! ### Streaming reducer (`reducer.py`) -/

/-- Python `line.split('\t')`: tab-separated fields, empty fields kept. -/
def splitTab : List Char → List (List Char)
  | [] => [[]]
  | c :: cs =>
    if c = '\t' then [] :: splitTab cs
    else
      match splitTab cs with
      | [] => [[c]]
      | p :: ps => (c :: p) :: ps

/-- Digit accumulation for `int(s)`, allowing single grouping underscores
between digits. -/
def pyDigitsAux : ℕ → List Char → Option ℕ
  | acc, [] => some acc
  | acc, '_' :: c :: rest =>
    if c.isDigit then pyDigitsAux (acc * 10 + digitVal c) rest else none
  | acc, c :: rest =>
    if c.isDigit then pyDigitsAux (acc * 10 + digitVal c) rest else none

/-- Python `int(s)`: optional surrounding whitespace, optional sign, at
least one digit; `none` models the `ValueError`. -/
def pyInt (s : String) : Option ℤ :=
  let t := pyStrip s.data
  match t with
  | [] => none
  | c :: rest =>
    let signed : Bool × List Char :=
      if c = '-' then (true, rest)
      else if c = '+' then (false, rest)
      else (false, t)
    match signed.2 with
    | [] => none
    | d :: ds =>
      if d.isDigit then
        match pyDigitsAux (digitVal d) ds with
        | some n => some (if signed.1 then -(n : ℤ) else (n : ℤ))
        | none => none
      else none

/-- The per-line parse of `reducer_combined`: strip, require at least four
tab-separated fields and an integer count, and return the counter key
`month + '\t' + item` with the count; `none` is a skipped line. -/
def parse_reducer_line (line : String) : Option (List Char × ℤ) :=
  let l := pyStrip line.data
  if l = [] then none
  else
    let parts := splitTab l
    if 4 ≤ parts.length then
      match pyInt (String.mk (parts.getD 3 [])) with
      | some count => some (parts.getD 1 [] ++ '\t' :: parts.getD 2 [], count)
      | none => none
    else none

/-- `data_counter[key] += count` on an insertion-ordered counter. -/
def add_count (acc : List (List Char × ℤ)) (key : List Char) (c : ℤ) :
    List (List Char × ℤ) :=
  if acc.any (fun e => e.1 = key) then
    acc.map (fun e => if e.1 = key then (e.1, e.2 + c) else e)
  else acc ++ [(key, c)]

/-- One input line of the reducer's accumulation loop. -/
def reducer_step (acc : List (List Char × ℤ)) (line : String) : List (List Char × ℤ) :=
  match parse_reducer_line line with
  | some kc => add_count acc kc.1 kc.2
  | none => acc

/-- The reducer's accumulated counter over all input lines. -/
def reducer_counts (lines : List String) : List (List Char × ℤ) :=
  lines.foldl reducer_step []

/-- The accumulated count of one `(period, item)` counter key (0 if absent). -/
def counter_value (acc : List (List Char × ℤ)) (key : List Char) : ℤ :=
  match acc.find? (fun e => e.1 = key) with
  | some e => e.2
  | none => 0

/-- Python `key.split('\t', 1)`. -/
def splitFirstTab : List Char → List Char × List Char
  | [] => ([], [])
  | c :: cs =>
    if c = '\t' then ([], cs)
    else
      ((splitFirstTab cs).1.cons c, (splitFirstTab cs).2)

/-- One `<TYPE>_RESULT` output line of the reducer. -/
def format_result (tag : String) (key : List Char) (count : ℤ) : String :=
  tag ++ "\t" ++ String.mk (splitFirstTab key).1 ++ "\t" ++
    String.mk (splitFirstTab key).2 ++ "\t" ++ toString count

/-- `reducer_combined`: accumulate counts keyed by `(period, item)`, then
emit `most_common`-ordered result lines for the selected analysis type. -/
def reducer_combined (analysis_type : String) (lines : List String) : List String :=
  let data_counter := reducer_counts lines
  let sorted_items := sortDescBy (fun e => e.2) data_counter
  if analysis_type = "hashtags" then
    (sorted_items.take 10).map (fun e => format_result "HASHTAG_RESULT" e.1 e.2)
  else if analysis_type = "sentiment" then
    sorted_items.map (fun e => format_result "SENTIMENT_RESULT" e.1 e.2)
  else if analysis_type = "geography" then
    (sorted_items.take 20).map (fun e => format_result "GEOGRAPHY_RESULT" e.1 e.2)
  else []

/-! ### Specification-side definitions used by the claims -/

/-- The weight the specification assigns to token `i` of `words`: `1.5`
exactly when the single immediately preceding token is an intensifier. -/
def token_weight (words : List String) (i : ℕ) : ℚ :=
  if 0 < i ∧ words.getD (i - 1) "" ∈ intensifiers then 3/2 else 1

/-- Specification-side positive score: the sum over all token indices of the
weighted indicator of a positive word. -/
def spec_positive_score (words : List String) : ℚ :=
  ((List.range words.length).map (fun i =>
    if words.getD i "" ∈ positive_words then token_weight words i else 0)).sum

/-- Specification-side negative score (the `elif`: only tokens that are not
positive words count). -/
def spec_negative_score (words : List String) : ℚ :=
  ((List.range words.length).map (fun i =>
    if words.getD i "" ∈ positive_words then 0
    else if words.getD i "" ∈ negative_words then token_weight words i else 0)).sum

/-- The sum, over the well-formed input lines carrying a given counter key,
of their integer count fields. -/
def spec_line_sum (lines : List String) (key : List Char) : ℤ :=
  (lines.map (fun line =>
    match parse_reducer_line line with
    | some kc => if kc.1 = key then kc.2 else 0
    | none => 0)).sum

/-- The last element of `xs`, or `prev` when `xs` is empty: the "previous
token" seen by `sentiment_loop` after consuming `xs`. -/
def last_or (prev : Option String) : List String → Option String
  | [] => prev
  | w :: ws => last_or (some w) ws

/-! ### Concrete fixtures used by witnesses and counterexamples -/

/-- A record with only a location, no text, as the streaming mapper sees it. -/
def geo_only_tweet : StreamTweet := { location := some ⟨"Paris", ["48.85", "2.35"]⟩ }

/-- A record whose timestamp is in the repository's primary format. -/
def primary_ts_tweet : StreamTweet := { tweet_text := "hello", timestamp := "2024-03-05 10:00:00" }

/-- The same record with an ISO-8601 `'T'` separator in its timestamp. -/
def iso_ts_tweet : StreamTweet := { tweet_text := "hello", timestamp := "2024-03-05T10:00:00" }

/-- A record whose `location.city` is a non-empty whitespace-only string. -/
def blank_city_tweet : Tweet := { tweet_text := "x", location := some ⟨" ", []⟩ }

/-- A record with a valid city and no timestamp. -/
def paris_no_ts_tweet : Tweet := { tweet_text := "hi", location := some ⟨"Paris", []⟩ }

/-! ### Theorems -/

/-- C4: for every score `s` the sentiment label is `"positive"` iff
`s > 0.1`, `"negative"` iff `s < -0.1`, `"neutral"` otherwise (both
thresholds strict); a score of exactly `0.1` is labelled `"neutral"` and a
score of `0.1000001` is labelled `"positive"`. -/
theorem sentiment_label_strict_thresholds (s : ℚ) :
    (get_sentiment_label s = "positive" ↔ 1/10 < s) ∧
    (get_sentiment_label s = "negative" ↔ s < -(1/10)) ∧
    (get_sentiment_label s = "neutral" ↔ -(1/10) ≤ s ∧ s ≤ 1/10) ∧
    get_sentiment_label (1/10) = "neutral" ∧
    get_sentiment_label (1000001/10000000) = "positive" := by
  unfold get_sentiment_label
  refine ⟨?_, ?_, ?_, by norm_num, by norm_num⟩ <;>
    split_ifs with h1 h2 <;> simp_all <;> linarith

/-- C1: every sentiment score lies in the closed interval `[-1, 1]`, and an
empty text, or any text with zero word tokens, scores exactly `0`. -/
theorem sentiment_score_bounds (text : String) :
    (-1 ≤ analyze_sentiment text ∧ analyze_sentiment text ≤ 1) ∧
    (text = "" ∨ tokenize text = [] → analyze_sentiment text = 0) := by
  constructor
  · simp only [analyze_sentiment]
    split_ifs with h1 h2
    · norm_num
    · norm_num
    · exact ⟨le_max_left _ _, max_le (by norm_num) (min_le_left _ _)⟩
  · intro h
    rcases h with h | h
    · simp [analyze_sentiment, h]
    · simp [analyze_sentiment, h]

/-- C1 witness: the empty text scores exactly `0`, and the score of a
concrete text respects the lower bound. -/
theorem sentiment_score_bounds_witness :
    analyze_sentiment "" = 0 ∧ -1 ≤ analyze_sentiment "good" :=
  ⟨(sentiment_score_bounds "").2 (Or.inl rfl), (sentiment_score_bounds "good").1.1⟩

/-- C10: the streaming mapper emits nothing for a record whose three text
fields are all empty, whatever the analysis type — even in geography mode
with a valid `location.city`. -/
theorem mapper_requires_text (analysis_type : String) (tweet : StreamTweet)
    (h1 : tweet.tweet_text = "") (h2 : tweet.text = "") (h3 : tweet.full_text = "") :
    mapper_process_tweet analysis_type tweet = [] := by
  unfold mapper_process_tweet str_or
  simp [h1, h2, h3]

/-- C10 witness: a record with a valid city and coordinates but no text is
skipped in geography mode. -/
theorem mapper_requires_text_witness :
    mapper_process_tweet "geography" geo_only_tweet = [] :=
  mapper_requires_text "geography" geo_only_tweet rfl rfl rfl

/-- C3: evaluating the streaming mapper on the repository's primary
timestamp format `'2024-03-05 10:00:00'` yields the fallback period key
`'2024-01'`, not `'2024-03'` — the mapper only attempts an ISO parse when
the string contains `'T'` and otherwise the legacy Twitter format — while
the same instant written with a `'T'` separator yields `'2024-03'`. -/
theorem mapper_primary_timestamp_gets_fallback_key :
    mapper_process_tweet "sentiment" primary_ts_tweet = ["SENTIMENT\t2024-01\tneutral\t1"] ∧
    mapper_process_tweet "sentiment" iso_ts_tweet = ["SENTIMENT\t2024-03\tneutral\t1"] ∧
    mapper_month_key "2024-03-05 10:00:00" = "2024-01" ∧
    parse_ymd_hms "2024-03-05 10:00:00" = some (2024, 3) := by
  exact ⟨by decide, by decide, by decide, by decide⟩

/-! ### Helper lemmas on the string primitives -/

theorem char_toNat_ofNat (n : ℕ) (h : n < 55296) : (Char.ofNat n).toNat = n := by
  unfold Char.ofNat
  rw [dif_pos (Or.inl h)]
  rfl

theorem toLower_toLower (c : Char) : c.toLower.toLower = c.toLower := by
  unfold Char.toLower
  by_cases h : c.toNat ≥ 65 ∧ c.toNat ≤ 90
  · rw [if_pos h]
    have hv : (Char.ofNat (c.toNat + 32)).toNat = c.toNat + 32 :=
      char_toNat_ofNat _ (by omega)
    rw [hv, if_neg (by omega)]
  · rw [if_neg h, if_neg h]

theorem pyLower_idem (l : List Char) : pyLower (pyLower l) = pyLower l := by
  unfold pyLower
  rw [List.map_map]
  exact List.map_congr_left (fun a _ => toLower_toLower a)

theorem pyIsSpace_false_of_gt (c : Char) (h : 64 < c.toNat) : pyIsSpace c = false := by
  unfold pyIsSpace
  have h1 : c ≠ ' ' := fun he => absurd (he ▸ h) (by decide)
  have h2 : c ≠ '\t' := fun he => absurd (he ▸ h) (by decide)
  have h3 : c ≠ '\n' := fun he => absurd (he ▸ h) (by decide)
  have h4 : c ≠ '\r' := fun he => absurd (he ▸ h) (by decide)
  have h5 : c ≠ '\x0b' := fun he => absurd (he ▸ h) (by decide)
  have h6 : c ≠ '\x0c' := fun he => absurd (he ▸ h) (by decide)
  simp [h1, h2, h3, h4, h5, h6]

theorem pyIsSpace_toLower (c : Char) : pyIsSpace c.toLower = pyIsSpace c := by
  unfold Char.toLower
  by_cases h : c.toNat ≥ 65 ∧ c.toNat ≤ 90
  · rw [if_pos h]
    have hv : (Char.ofNat (c.toNat + 32)).toNat = c.toNat + 32 :=
      char_toNat_ofNat _ (by omega)
    rw [pyIsSpace_false_of_gt _ (by omega), pyIsSpace_false_of_gt c (by omega)]
  · rw [if_neg h]

theorem dropWhile_shape {α : Type} (p : α → Bool) (l : List α) :
    l.dropWhile p = [] ∨ ∃ c cs, l.dropWhile p = c :: cs ∧ p c = false := by
  induction l with
  | nil => exact Or.inl rfl
  | cons a t ih =>
    by_cases h : p a
    · simpa [List.dropWhile_cons, h] using ih
    · exact Or.inr ⟨a, t, by simp [List.dropWhile_cons, h], by simp [h]⟩

theorem dropWhile_idem {α : Type} (p : α → Bool) (l : List α) :
    (l.dropWhile p).dropWhile p = l.dropWhile p := by
  rcases dropWhile_shape p l with h | ⟨c, cs, h, hc⟩
  · simp [h]
  · simp [h, List.dropWhile_cons, hc]

theorem dropWhile_eq_self_of_prefix {α : Type} {p : α → Bool} {a z : List α}
    (ha : a.dropWhile p = a) (hz : z <+: a) : z.dropWhile p = z := by
  cases z with
  | nil => rfl
  | cons c t =>
    obtain ⟨s, hs⟩ := hz
    have hc : p c = false := by
      by_contra hpc
      have hpc' : p c = true := by simpa using hpc
      rw [← hs] at ha
      rw [List.cons_append, List.dropWhile_cons, if_pos hpc'] at ha
      have h1 := congrArg List.length ha
      rw [List.length_cons] at h1
      have h2 := (List.dropWhile_sublist (l := t ++ s) p).length_le
      omega
    simp [List.dropWhile_cons, hc]

theorem pyStrip_noTrail (l : List Char) :
    (pyStrip l).reverse.dropWhile pyIsSpace = (pyStrip l).reverse := by
  unfold pyStrip
  rw [List.reverse_reverse]
  exact dropWhile_idem _ _

theorem pyStrip_noLead (l : List Char) :
    (pyStrip l).dropWhile pyIsSpace = pyStrip l := by
  have hsub : pyStrip l <+: l.dropWhile pyIsSpace := by
    unfold pyStrip
    obtain ⟨s, hs⟩ :=
      List.dropWhile_suffix (l := (l.dropWhile pyIsSpace).reverse) pyIsSpace
    refine ⟨s.reverse, ?_⟩
    have := congrArg List.reverse hs
    simpa [List.reverse_append] using this
  exact dropWhile_eq_self_of_prefix (dropWhile_idem _ _) hsub

theorem pyStrip_eq_self (l : List Char) (h1 : l.dropWhile pyIsSpace = l)
    (h2 : l.reverse.dropWhile pyIsSpace = l.reverse) : pyStrip l = l := by
  unfold pyStrip
  rw [h1, h2, List.reverse_reverse]

theorem pyStrip_idem (l : List Char) : pyStrip (pyStrip l) = pyStrip l :=
  pyStrip_eq_self _ (pyStrip_noLead l) (pyStrip_noTrail l)

theorem dropWhile_pyLower (l : List Char) :
    (pyLower l).dropWhile pyIsSpace = pyLower (l.dropWhile pyIsSpace) := by
  induction l with
  | nil => rfl
  | cons a t ih =>
    by_cases h : pyIsSpace a
    · simp [pyLower, List.dropWhile_cons, pyIsSpace_toLower, h] at ih ⊢
      exact ih
    · simp [pyLower, List.dropWhile_cons, pyIsSpace_toLower, h]

theorem pyLower_reverse (l : List Char) : (pyLower l).reverse = pyLower l.reverse := by
  unfold pyLower
  exact (List.map_reverse _ _).symm

theorem pyStrip_pyLower (l : List Char) :
    pyStrip (pyLower l) = pyLower (pyStrip l) := by
  unfold pyStrip
  rw [dropWhile_pyLower, pyLower_reverse, dropWhile_pyLower, pyLower_reverse]
theorem clean_hashtag_nil {l : List Char} (h : pyLower (pyStrip l) = []) :
    clean_hashtag l = [] := by
  unfold clean_hashtag
  rw [h]

theorem clean_hashtag_cons {l : List Char} {c : Char} {rest : List Char}
    (h : pyLower (pyStrip l) = c :: rest) :
    clean_hashtag l = if c = '#' then rest else c :: rest := by
  unfold clean_hashtag
  rw [h]

/-- C2 counterexample: normalization is not idempotent on every string —
`"##ai"` normalizes to `"#ai"`, which normalizes again to `"ai"`. -/
theorem clean_hashtag_not_idempotent :
    clean_hashtag (clean_hashtag "##ai".data) ≠ clean_hashtag "##ai".data := by
  decide

/-- C2 (amended): hashtag normalization (strip, lowercase, drop one leading
`'#'`) is idempotent on every string whose stripped lowercased form does not
start with `'#'` immediately followed by another `'#'` or a whitespace
character; in particular `"#AI"`, `"ai"` and `" AI "` all normalize
to `"ai"`. -/
theorem clean_hashtag_idempotent (s : List Char)
    (H : ∀ c rest, pyLower (pyStrip s) = '#' :: c :: rest →
      c ≠ '#' ∧ pyIsSpace c = false) :
    clean_hashtag (clean_hashtag s) = clean_hashtag s ∧
    clean_hashtag "#AI".data = "ai".data ∧
    clean_hashtag "ai".data = "ai".data ∧
    clean_hashtag " AI ".data = "ai".data := by
  refine ⟨?_, by decide, by decide, by decide⟩
  have hu_strip : pyStrip (pyLower (pyStrip s)) = pyLower (pyStrip s) := by
    rw [pyStrip_pyLower, pyStrip_idem]
  have hu_lower : pyLower (pyLower (pyStrip s)) = pyLower (pyStrip s) := pyLower_idem _
  rcases hshape : pyLower (pyStrip s) with _ | ⟨c, v⟩
  · rw [clean_hashtag_nil hshape]
    decide
  · by_cases hc : c = '#'
    · subst hc
      rw [clean_hashtag_cons hshape, if_pos rfl]
      have hvlow : pyLower v = v := by
        have h2 : pyLower ('#' :: v) = '#' :: v := by rw [← hshape]; exact hu_lower
        have h3 : pyLower ('#' :: v) = '#' :: pyLower v := by
          simp [pyLower, List.map_cons, show Char.toLower '#' = '#' from by decide]
        rw [h3] at h2
        injection h2
      have hnt : ('#' :: v).reverse.dropWhile pyIsSpace = ('#' :: v).reverse := by
        have h5 := pyStrip_noTrail (pyLower (pyStrip s))
        rw [hu_strip, hshape] at h5
        exact h5
      cases v with
      | nil => decide
      | cons d w =>
        obtain ⟨hd1, hd2⟩ := H d w hshape
        have hvstrip : pyStrip (d :: w) = d :: w := by
          apply pyStrip_eq_self
          · simp [List.dropWhile_cons, hd2]
          · refine dropWhile_eq_self_of_prefix hnt ?_
            have hrev : ('#' :: d :: w).reverse = (d :: w).reverse ++ ['#'] :=
              List.reverse_cons '#' (d :: w)
            rw [hrev]
            exact List.prefix_append _ _
        have hform : pyLower (pyStrip (d :: w)) = d :: w := by
          rw [hvstrip]
          exact hvlow
        rw [clean_hashtag_cons hform, if_neg hd1]
    · rw [clean_hashtag_cons hshape, if_neg hc]
      have hvstrip : pyStrip (c :: v) = c :: v := by rw [← hshape]; exact hu_strip
      have hform : pyLower (pyStrip (c :: v)) = c :: v := by
        rw [hvstrip, ← hshape, hu_lower, hshape]
      rw [clean_hashtag_cons hform, if_neg hc]

/-- C2 witness: the amended idempotence law applied to the concrete
tag `"#AI"`. -/
theorem clean_hashtag_idempotent_witness :
    clean_hashtag (clean_hashtag "#AI".data) = clean_hashtag "#AI".data :=
  (clean_hashtag_idempotent "#AI".data (fun c rest h => by
    have he : pyLower (pyStrip "#AI".data) = ['#', 'a', 'i'] := by decide
    rw [he] at h
    simp only [List.cons.injEq] at h
    obtain ⟨hc, hrest⟩ := h.2
    subst hc
    exact ⟨by decide, by decide⟩)).1

/-! ### The scoring loop as an indexed sum (C5) -/

theorem sentiment_loop_eq_sums (words : List String) : ∀ (prev : Option String),
    sentiment_loop prev words =
      (((List.range words.length).map (fun i =>
          if words.getD i "" ∈ positive_words then
            (if i = 0 then intensifier_weight prev
             else intensifier_weight (some (words.getD (i - 1) ""))) else 0)).sum,
       ((List.range words.length).map (fun i =>
          if words.getD i "" ∈ positive_words then 0
          else if words.getD i "" ∈ negative_words then
            (if i = 0 then intensifier_weight prev
             else intensifier_weight (some (words.getD (i - 1) ""))) else 0)).sum) := by
  induction words with
  | nil => intro prev; simp [sentiment_loop]
  | cons w ws ih =>
    intro prev
    have hmap : ∀ (f g : ℕ → ℚ), (∀ i, f (i + 1) = g i) →
        List.map f (List.range (w :: ws).length) = f 0 :: List.map g (List.range ws.length) := by
      intro f g hfg
      rw [List.length_cons, List.range_succ_eq_map, List.map_cons, List.map_map]
      congr 1
      exact List.map_congr_left (fun i _ => hfg i)
    rw [show sentiment_loop prev (w :: ws) =
        (if w ∈ positive_words then
          ((sentiment_loop (some w) ws).1 + intensifier_weight prev,
            (sentiment_loop (some w) ws).2)
        else if w ∈ negative_words then
          ((sentiment_loop (some w) ws).1,
            (sentiment_loop (some w) ws).2 + intensifier_weight prev)
        else sentiment_loop (some w) ws) from rfl]
    rw [ih (some w)]
    rw [hmap _ (fun i =>
        if ws.getD i "" ∈ positive_words then
          (if i = 0 then intensifier_weight (some w)
           else intensifier_weight (some (ws.getD (i - 1) ""))) else 0)
      (fun i => by cases i <;> simp)]
    rw [hmap _ (fun i =>
        if ws.getD i "" ∈ positive_words then 0
        else if ws.getD i "" ∈ negative_words then
          (if i = 0 then intensifier_weight (some w)
           else intensifier_weight (some (ws.getD (i - 1) ""))) else 0)
      (fun i => by cases i <;> simp)]
    simp only [List.sum_cons, List.getD_cons_zero, if_pos rfl]
    split_ifs with h1 h2
    · refine Prod.ext ?_ ?_ <;> simp <;> ring
    · refine Prod.ext ?_ ?_ <;> simp <;> ring
    · refine Prod.ext ?_ ?_ <;> simp

theorem sentiment_loop_append : ∀ (xs : List String) (prev : Option String) (ys : List String),
    sentiment_loop prev (xs ++ ys) =
      sentiment_loop prev xs + sentiment_loop (last_or prev xs) ys := by
  intro xs
  induction xs with
  | nil =>
    intro prev ys
    simp [sentiment_loop, last_or, Prod.ext_iff]
  | cons x xs ih =>
    intro prev ys
    rw [List.cons_append]
    rw [show sentiment_loop prev (x :: (xs ++ ys)) =
        (if x ∈ positive_words then
          ((sentiment_loop (some x) (xs ++ ys)).1 + intensifier_weight prev,
            (sentiment_loop (some x) (xs ++ ys)).2)
        else if x ∈ negative_words then
          ((sentiment_loop (some x) (xs ++ ys)).1,
            (sentiment_loop (some x) (xs ++ ys)).2 + intensifier_weight prev)
        else sentiment_loop (some x) (xs ++ ys)) from rfl]
    rw [show sentiment_loop prev (x :: xs) =
        (if x ∈ positive_words then
          ((sentiment_loop (some x) xs).1 + intensifier_weight prev,
            (sentiment_loop (some x) xs).2)
        else if x ∈ negative_words then
          ((sentiment_loop (some x) xs).1,
            (sentiment_loop (some x) xs).2 + intensifier_weight prev)
        else sentiment_loop (some x) xs) from rfl]
    rw [show last_or prev (x :: xs) = last_or (some x) xs from rfl]
    rw [ih (some x) ys]
    split_ifs <;> refine Prod.ext ?_ ?_ <;> simp [Prod.fst_add, Prod.snd_add] <;> ring

/-- C5: the intensifier weight of `1.5` applies to a token exactly when the
single immediately preceding token is an intensifier — the scoring loop
equals the indexed sum that weights token `i` by `token_weight`, which is
`3/2` precisely when `0 < i` and token `i - 1` is an intensifier — and a
positive (resp. negative) word two positions after an intensifier, with a
non-intensifier in between, contributes exactly weight `1`. -/
theorem intensifier_weight_adjacent_only (words : List String) :
    (sentiment_loop none words = (spec_positive_score words, spec_negative_score words)) ∧
    (∀ i, ¬(0 < i ∧ words.getD (i - 1) "" ∈ intensifiers) → token_weight words i = 1) ∧
    (∀ xs a b p, a ∈ intensifiers → b ∉ intensifiers → p ∈ positive_words →
      (sentiment_loop none (xs ++ [a, b, p])).1 =
        (sentiment_loop none (xs ++ [a, b])).1 + 1) ∧
    (∀ xs a b q, a ∈ intensifiers → b ∉ intensifiers →
      q ∉ positive_words → q ∈ negative_words →
      (sentiment_loop none (xs ++ [a, b, q])).2 =
        (sentiment_loop none (xs ++ [a, b])).2 + 1) := by
  refine ⟨?_, ?_, ?_, ?_⟩
  · rw [sentiment_loop_eq_sums words none]
    unfold spec_positive_score spec_negative_score
    congr 1
    · refine congrArg List.sum (List.map_congr_left ?_)
      intro i _
      cases i with
      | zero => simp [token_weight, intensifier_weight]
      | succ j => simp [token_weight, intensifier_weight]
    · refine congrArg List.sum (List.map_congr_left ?_)
      intro i _
      cases i with
      | zero => simp [token_weight, intensifier_weight]
      | succ j => simp [token_weight, intensifier_weight]
  · intro i hi
    unfold token_weight
    rw [if_neg hi]
  · intro xs a b p ha hb hp
    have key : ∀ r : Option String,
        (sentiment_loop r [a, b, p]).1 = (sentiment_loop r [a, b]).1 + 1 := by
      intro r
      simp only [sentiment_loop, intensifier_weight]
      split_ifs <;> simp_all <;> ring
    rw [sentiment_loop_append xs none [a, b, p], sentiment_loop_append xs none [a, b]]
    simp only [Prod.fst_add]
    rw [key]
    ring
  · intro xs a b q ha hb hq1 hq2
    have key : ∀ r : Option String,
        (sentiment_loop r [a, b, q]).2 = (sentiment_loop r [a, b]).2 + 1 := by
      intro r
      simp only [sentiment_loop, intensifier_weight]
      split_ifs <;> simp_all <;> ring
    rw [sentiment_loop_append xs none [a, b, q], sentiment_loop_append xs none [a, b]]
    simp only [Prod.snd_add]
    rw [key]
    ring

/-- C5 witness: the law applied at concrete tokens — `"very"` is an
intensifier, `"day"` is not, `"good"` is a positive word and `"bad"` a
negative one. -/
theorem intensifier_weight_adjacent_only_witness :
    (sentiment_loop none (["x"] ++ ["very", "day", "good"])).1 =
      (sentiment_loop none (["x"] ++ ["very", "day"])).1 + 1 ∧
    (sentiment_loop none (["x"] ++ ["very", "day", "bad"])).2 =
      (sentiment_loop none (["x"] ++ ["very", "day"])).2 + 1 ∧
    token_weight ["very", "day", "good"] 2 = 1 :=
  ⟨(intensifier_weight_adjacent_only []).2.2.1 ["x"] "very" "day" "good"
      (by decide) (by decide) (by decide),
   (intensifier_weight_adjacent_only []).2.2.2 ["x"] "very" "day" "bad"
      (by decide) (by decide) (by decide) (by decide),
   (intensifier_weight_adjacent_only ["very", "day", "good"]).2.1 2 (by decide)⟩

/-! ### Reducer counter lemmas (C9) -/

theorem counter_value_nil (k : List Char) : counter_value [] k = 0 := rfl

theorem counter_value_cons (e : List Char × ℤ) (acc : List (List Char × ℤ)) (k : List Char) :
    counter_value (e :: acc) k = if e.1 = k then e.2 else counter_value acc k := by
  unfold counter_value
  by_cases h : e.1 = k <;> simp [List.find?, h]

theorem counter_value_map_other (acc : List (List Char × ℤ)) (key k : List Char) (c : ℤ)
    (hk : k ≠ key) :
    counter_value (acc.map (fun e => if e.1 = key then (e.1, e.2 + c) else e)) k =
      counter_value acc k := by
  induction acc with
  | nil => rfl
  | cons e rest ih =>
    rw [List.map_cons, counter_value_cons, counter_value_cons]
    by_cases he : e.1 = key
    · rw [if_pos he]
      have : (e.1, e.2 + c).1 ≠ k := by simpa [he] using hk.symm
      rw [if_neg this, if_neg (by simpa [he] using hk.symm), ih]
    · rw [if_neg he]
      by_cases hek : e.1 = k
      · rw [if_pos hek, if_pos hek]
      · rw [if_neg hek, if_neg hek, ih]

theorem counter_value_map_add (acc : List (List Char × ℤ)) (key k : List Char) (c : ℤ)
    (hmem : ∃ e ∈ acc, e.1 = key) :
    counter_value (acc.map (fun e => if e.1 = key then (e.1, e.2 + c) else e)) k =
      counter_value acc k + (if k = key then c else 0) := by
  by_cases hk : k = key
  · subst hk
    induction acc with
    | nil => simp at hmem
    | cons e rest ih =>
      rw [List.map_cons, counter_value_cons, counter_value_cons]
      by_cases he : e.1 = k
      · rw [if_pos he, if_pos he]
        have : (e.1, e.2 + c).1 = k := he
        rw [if_pos this, if_pos rfl]
      · have hrest : ∃ e ∈ rest, e.1 = k := by
          rcases hmem with ⟨f, hf, hfk⟩
          rcases List.mem_cons.mp hf with rfl | hfr
          · exact absurd hfk he
          · exact ⟨f, hfr, hfk⟩
        simp only [he, if_false, ite_false]
        rw [ih hrest]
        simp
  · rw [counter_value_map_other acc key k c hk, if_neg hk, add_zero]

theorem counter_value_append_new (acc : List (List Char × ℤ)) (key k : List Char) (c : ℤ)
    (hnot : ∀ e ∈ acc, e.1 ≠ key) :
    counter_value (acc ++ [(key, c)]) k =
      counter_value acc k + (if k = key then c else 0) := by
  induction acc with
  | nil =>
    by_cases h : k = key
    · subst h
      simp [counter_value_cons, counter_value_nil]
    · simp [counter_value_cons, counter_value_nil, h, Ne.symm h]
  | cons e rest ih =>
    rw [List.cons_append, counter_value_cons, counter_value_cons]
    by_cases hek : e.1 = k
    · rw [if_pos hek, if_pos hek]
      have hkney : k ≠ key := by
        intro hk
        exact hnot e (List.mem_cons_self e rest) (hek.trans hk)
      rw [if_neg hkney, add_zero]
    · rw [if_neg hek, if_neg hek,
        ih (fun f hf => hnot f (List.mem_cons_of_mem e hf))]

theorem add_count_value (acc : List (List Char × ℤ)) (key k : List Char) (c : ℤ) :
    counter_value (add_count acc key c) k =
      counter_value acc k + (if k = key then c else 0) := by
  unfold add_count
  by_cases hmem : acc.any (fun e => e.1 = key) = true
  · rw [if_pos hmem]
    apply counter_value_map_add
    simpa using hmem
  · rw [if_neg hmem]
    apply counter_value_append_new
    intro e he hk
    exact hmem (List.any_eq_true.mpr ⟨e, he, by simp [hk]⟩)

theorem reducer_counts_value (lines : List String) (key : List Char) :
    counter_value (reducer_counts lines) key = spec_line_sum lines key := by
  have h : ∀ acc, counter_value (lines.foldl reducer_step acc) key =
      counter_value acc key + spec_line_sum lines key := by
    induction lines with
    | nil => intro acc; simp [spec_line_sum]
    | cons line rest ih =>
      intro acc
      rw [List.foldl_cons, ih]
      have hsum : spec_line_sum (line :: rest) key =
          (match parse_reducer_line line with
           | some kc => if kc.1 = key then kc.2 else 0
           | none => 0) + spec_line_sum rest key := by
        unfold spec_line_sum
        rw [List.map_cons, List.sum_cons]
      rw [hsum]
      unfold reducer_step
      cases hp : parse_reducer_line line with
      | none => simp
      | some kc =>
        dsimp only
        rw [add_count_value]
        by_cases hk : key = kc.1
        · rw [if_pos hk, if_pos hk.symm]
          ring
        · rw [if_neg hk, if_neg (fun h => hk h.symm)]
          ring
  have h0 := h []
  rwa [counter_value_nil, zero_add] at h0

/-- C9: the reducer's accumulated count for each `(period, item)` counter
key equals the sum of the integer count fields of the well-formed input
lines carrying that key; a line with fewer than four tab-separated fields
or a non-integer count contributes nothing and does not abort the run (it
can be removed without changing the output); and the two mapper lines
`SENTIMENT\t2024-01\tpositive\t1` produce
`SENTIMENT_RESULT\t2024-01\tpositive\t2` under the sentiment analysis
type. -/
theorem reducer_counts_are_line_sums :
    (∀ lines key, counter_value (reducer_counts lines) key = spec_line_sum lines key) ∧
    (∀ analysis_type pre bad post, parse_reducer_line bad = none →
      reducer_combined analysis_type (pre ++ bad :: post) =
        reducer_combined analysis_type (pre ++ post)) ∧
    reducer_combined "sentiment"
      ["SENTIMENT\t2024-01\tpositive\t1", "SENTIMENT\t2024-01\tpositive\t1"] =
      ["SENTIMENT_RESULT\t2024-01\tpositive\t2"] := by
  refine ⟨reducer_counts_value, ?_, by decide⟩
  intro analysis_type pre bad post hbad
  have hfold : ∀ acc : List (List Char × ℤ),
      (pre ++ bad :: post).foldl reducer_step acc =
        (pre ++ post).foldl reducer_step acc := by
    intro acc
    rw [List.foldl_append, List.foldl_append, List.foldl_cons]
    congr 1
    unfold reducer_step
    rw [hbad]
  unfold reducer_combined reducer_counts
  rw [hfold]

/-- C9 witness: the counter law applied to one concrete well-formed line,
and a malformed line (one field, no integer count) removed from a concrete
input without changing the output. -/
theorem reducer_counts_are_line_sums_witness :
    counter_value (reducer_counts ["SENTIMENT\t2024-01\tpositive\t1"])
        "2024-01\tpositive".data =
      spec_line_sum ["SENTIMENT\t2024-01\tpositive\t1"] "2024-01\tpositive".data ∧
    reducer_combined "sentiment"
        (["SENTIMENT\t2024-01\tpositive\t2"] ++ "not a valid line" :: []) =
      reducer_combined "sentiment" (["SENTIMENT\t2024-01\tpositive\t2"] ++ []) :=
  ⟨reducer_counts_are_line_sums.1 _ _,
   reducer_counts_are_line_sums.2.1 "sentiment" _ "not a valid line" [] (by decide)⟩

/-- C7 counterexample: a record whose `location.city` is the non-empty
whitespace string `" "` is dropped by the geographic classifier, so
"no result iff `location.city` is absent or empty" fails as stated. -/
theorem geo_mapper_drops_whitespace_city :
    map_geographic_data blank_city_tweet = none ∧
    blank_city_tweet.location = some ⟨" ", []⟩ ∧ (" " : String) ≠ "" := by
  decide

/-- C7 (amended): the geographic classifier returns no result iff the
record's `location.city` is absent or empty after lowercasing and stripping
whitespace; for a record whose normalized city is non-empty but whose
timestamp is missing or unparseable it still returns a payload, with the
sentinel month key `"unknown"` substituted instead of dropping the
record. -/
theorem map_geographic_none_iff (tweet : Tweet) :
    (map_geographic_data tweet = none ↔
      (tweet.location = none ∨
        ∃ loc, tweet.location = some loc ∧ pyStrip (pyLower loc.city.data) = [])) ∧
    (∀ loc, tweet.location = some loc →
      pyStrip (pyLower loc.city.data) ≠ [] →
      parse_ymd_hms tweet.timestamp = none →
      ∃ payload, map_geographic_data tweet = some payload ∧
        payload.month = "unknown") := by
  constructor
  · cases hloc : tweet.location with
    | none =>
      have hext : extract_location_info tweet = none := by
        unfold extract_location_info
        rw [hloc]
      constructor
      · intro _
        exact Or.inl rfl
      · intro _
        unfold map_geographic_data
        rw [hext]
    | some loc =>
      by_cases hc : pyStrip (pyLower loc.city.data) = []
      · have hext : extract_location_info tweet = none := by
          unfold extract_location_info
          rw [hloc]
          simp [hc]
        constructor
        · intro _
          exact Or.inr ⟨loc, rfl, hc⟩
        · intro _
          unfold map_geographic_data
          rw [hext]
      · have hext : ∃ li, extract_location_info tweet = some li := by
          unfold extract_location_info
          rw [hloc]
          dsimp only
          rw [if_neg hc]
          exact ⟨_, rfl⟩
        obtain ⟨li, hli⟩ := hext
        constructor
        · intro hnone
          unfold map_geographic_data at hnone
          rw [hli] at hnone
          simp at hnone
        · rintro (h | ⟨loc', hl', hc'⟩)
          · simp at h
          · injection hl' with he
            exact absurd (he ▸ hc') hc
  · intro loc hloc hc hts
    have hext : ∃ li, extract_location_info tweet = some li := by
      unfold extract_location_info
      rw [hloc]
      dsimp only
      rw [if_neg hc]
      exact ⟨_, rfl⟩
    obtain ⟨li, hli⟩ := hext
    unfold map_geographic_data
    rw [hli, hts]
    exact ⟨_, rfl, rfl⟩

/-- C7 witness: a record with city `"Paris"` and an empty timestamp still
yields a payload, whose month key is `"unknown"`. -/
theorem map_geographic_none_iff_witness :
    ∃ payload, map_geographic_data paris_no_ts_tweet = some payload ∧
      payload.month = "unknown" :=
  (map_geographic_none_iff paris_no_ts_tweet).2 ⟨"Paris", []⟩ rfl
    (by decide) (by decide)

/-! ### Stable descending sort lemmas (C6, C8) -/

theorem mem_firstOccurrencesAux {α : Type} [DecidableEq α] :
    ∀ (l seen : List α) (x : α),
    x ∈ firstOccurrencesAux seen l ↔ x ∈ l ∧ x ∉ seen := by
  intro l
  induction l with
  | nil => intro seen x; simp [firstOccurrencesAux]
  | cons y ys ih =>
    intro seen x
    unfold firstOccurrencesAux
    by_cases hy : y ∈ seen
    · rw [if_pos hy, ih]
      constructor
      · rintro ⟨h1, h2⟩
        exact ⟨List.mem_cons_of_mem y h1, h2⟩
      · rintro ⟨h1, h2⟩
        rcases List.mem_cons.mp h1 with rfl | h1
        · exact absurd hy h2
        · exact ⟨h1, h2⟩
    · rw [if_neg hy]
      constructor
      · intro h
        rcases List.mem_cons.mp h with rfl | h
        · exact ⟨List.mem_cons_self x ys, hy⟩
        · rcases (ih (y :: seen) x).mp h with ⟨h1, h2⟩
          exact ⟨List.mem_cons_of_mem y h1,
            fun hs => h2 (List.mem_cons_of_mem y hs)⟩
      · rintro ⟨h1, h2⟩
        rcases List.mem_cons.mp h1 with rfl | h1
        · exact List.mem_cons_self x _
        · by_cases hxy : x = y
          · exact hxy ▸ List.mem_cons_self _ _
          · exact List.mem_cons_of_mem y
              ((ih (y :: seen) x).mpr ⟨h1, by simp [hxy, h2]⟩)

theorem mem_firstOccurrences {α : Type} [DecidableEq α] (l : List α) (x : α) :
    x ∈ firstOccurrences l ↔ x ∈ l := by
  unfold firstOccurrences
  rw [mem_firstOccurrencesAux]
  simp

theorem mem_insertDescBy {α β : Type} [LinearOrder β] (key : α → β) (x a : α) :
    ∀ l, a ∈ insertDescBy key x l ↔ a = x ∨ a ∈ l := by
  intro l
  induction l with
  | nil => simp [insertDescBy]
  | cons y ys ih =>
    unfold insertDescBy
    by_cases h : key x ≤ key y
    · rw [if_pos h]
      rw [List.mem_cons, ih, List.mem_cons]
      tauto
    · rw [if_neg h]
      simp [List.mem_cons]

theorem sorted_insertDescBy {α β : Type} [LinearOrder β] (key : α → β) (x : α)
    (l : List α) (hl : l.Pairwise (fun a b => key b ≤ key a)) :
    (insertDescBy key x l).Pairwise (fun a b => key b ≤ key a) := by
  induction l with
  | nil => simp [insertDescBy]
  | cons y ys ih =>
    rcases List.pairwise_cons.mp hl with ⟨hy, hys⟩
    unfold insertDescBy
    by_cases h : key x ≤ key y
    · rw [if_pos h]
      refine List.pairwise_cons.mpr ⟨?_, ih hys⟩
      intro b hb
      rcases (mem_insertDescBy key x b ys).mp hb with rfl | hbys
      · exact h
      · exact hy b hbys
    · rw [if_neg h]
      refine List.pairwise_cons.mpr ⟨?_, hl⟩
      intro b hb
      rcases List.mem_cons.mp hb with rfl | hbys
      · exact le_of_not_le h
      · exact le_trans (hy b hbys) (le_of_not_le h)

theorem sorted_foldl_insertDescBy {α β : Type} [LinearOrder β] (key : α → β)
    (l : List α) : ∀ acc, acc.Pairwise (fun a b => key b ≤ key a) →
    (l.foldl (fun acc x => insertDescBy key x acc) acc).Pairwise
      (fun a b => key b ≤ key a) := by
  induction l with
  | nil => intro acc h; simpa using h
  | cons x xs ih =>
    intro acc h
    rw [List.foldl_cons]
    exact ih _ (sorted_insertDescBy key x acc h)

theorem sorted_sortDescBy {α β : Type} [LinearOrder β] (key : α → β) (l : List α) :
    (sortDescBy key l).Pairwise (fun a b => key b ≤ key a) :=
  sorted_foldl_insertDescBy key l [] List.Pairwise.nil

theorem filter_insertDescBy {α β : Type} [LinearOrder β] (key : α → β) (x : α)
    (c : β) (l : List α) (hl : l.Pairwise (fun a b => key b ≤ key a)) :
    (insertDescBy key x l).filter (fun z => key z = c) =
      l.filter (fun z => key z = c) ++ (if key x = c then [x] else []) := by
  induction l with
  | nil => by_cases h : key x = c <;> simp [insertDescBy, List.filter_cons, h]
  | cons y ys ih =>
    rcases List.pairwise_cons.mp hl with ⟨hy, hys⟩
    unfold insertDescBy
    by_cases h : key x ≤ key y
    · rw [if_pos h, List.filter_cons, List.filter_cons]
      by_cases hyc : key y = c
      · simp [hyc, ih hys]
      · simp [hyc, ih hys]
    · rw [if_neg h, List.filter_cons]
      by_cases hxc : key x = c
      · have hempty : (y :: ys).filter (fun z => key z = c) = [] := by
          rw [List.filter_eq_nil_iff]
          intro a ha
          have hlt : key a < key x := by
            rcases List.mem_cons.mp ha with rfl | hays
            · exact lt_of_not_le h
            · exact lt_of_le_of_lt (hy a hays) (lt_of_not_le h)
          simp only [decide_eq_true_eq]
          exact fun hac => absurd (hac.trans hxc.symm) (ne_of_lt hlt)
        simp [hxc, hempty]
      · simp [hxc]

theorem filter_foldl_insertDescBy {α β : Type} [LinearOrder β] (key : α → β)
    (c : β) (l : List α) : ∀ acc, acc.Pairwise (fun a b => key b ≤ key a) →
    (l.foldl (fun acc x => insertDescBy key x acc) acc).filter (fun z => key z = c) =
      acc.filter (fun z => key z = c) ++ l.filter (fun z => key z = c) := by
  induction l with
  | nil => intro acc h; simp
  | cons x xs ih =>
    intro acc h
    rw [List.foldl_cons, ih _ (sorted_insertDescBy key x acc h),
      filter_insertDescBy key x c acc h, List.filter_cons]
    by_cases hx : key x = c <;> simp [hx, List.append_assoc]

theorem filter_sortDescBy {α β : Type} [LinearOrder β] (key : α → β) (c : β)
    (l : List α) :
    (sortDescBy key l).filter (fun z => key z = c) = l.filter (fun z => key z = c) := by
  have h := filter_foldl_insertDescBy key c l [] List.Pairwise.nil
  simpa [sortDescBy] using h

/-- C6: for every collection of `(month, hashtag)` mapped entries, the
hashtag aggregator maps each month key occurring in the input (and no
other) to a list of at most 10 `(hashtag, count)` pairs ordered by count
descending, and among entries with equal count the hashtags appear as a
subsequence of the month's hashtags in first-encountered order. -/
theorem reduce_hashtags_top10 (mapped : List (String × String)) (month : String) :
    ((∃ l, (month, l) ∈ reduce_hashtags mapped) ↔ month ∈ mapped.map Prod.fst) ∧
    ∀ l, (month, l) ∈ reduce_hashtags mapped →
      l.length ≤ 10 ∧
      l.Pairwise (fun a b => b.2 ≤ a.2) ∧
      ∀ c : ℕ, ((l.filter (fun x => x.2 = c)).map Prod.fst).Sublist
        (firstOccurrences ((mapped.filter (fun e => e.1 = month)).map Prod.snd)) := by
  have hval : ∀ l, (month, l) ∈ reduce_hashtags mapped →
      l = most_common 10 ((mapped.filter (fun e => e.1 = month)).map Prod.snd) := by
    intro l hl
    unfold reduce_hashtags group_by_month at hl
    rw [List.map_map] at hl
    rcases List.mem_map.mp hl with ⟨m, hm, heq⟩
    rw [Prod.ext_iff] at heq
    obtain ⟨h1, h2⟩ := heq
    dsimp at h1 h2
    subst h1
    exact h2.symm
  constructor
  · constructor
    · rintro ⟨l, hl⟩
      unfold reduce_hashtags group_by_month at hl
      rw [List.map_map] at hl
      rcases List.mem_map.mp hl with ⟨m, hm, heq⟩
      have h1 : m = month := by
        have := congrArg Prod.fst heq
        simpa using this
      subst h1
      exact (mem_firstOccurrences _ _).mp hm
    · intro hmem
      refine ⟨most_common 10 ((mapped.filter (fun e => e.1 = month)).map Prod.snd), ?_⟩
      unfold reduce_hashtags group_by_month
      rw [List.map_map]
      exact List.mem_map.mpr ⟨month, (mem_firstOccurrences _ _).mpr hmem, rfl⟩
  · intro l hl
    rw [hval l hl]
    set hs := (mapped.filter (fun e => e.1 = month)).map Prod.snd with hhs
    refine ⟨List.length_take_le _ _, ?_, ?_⟩
    · exact List.Pairwise.sublist (List.take_sublist _ _)
        (sorted_sortDescBy (fun p : String × ℕ => p.2) (counterItems hs))
    · intro c
      have s1 : ((most_common 10 hs).filter (fun x => x.2 = c)).Sublist
          ((sortDescBy (fun p : String × ℕ => p.2) (counterItems hs)).filter
            (fun x => x.2 = c)) :=
        List.Sublist.filter _ (List.take_sublist _ _)
      have s2 := filter_sortDescBy (fun p : String × ℕ => p.2) c (counterItems hs)
      have s4 : (((counterItems hs).filter (fun x => x.2 = c)).map Prod.fst).Sublist
          (firstOccurrences hs) := by
        unfold counterItems
        rw [List.filter_map, List.map_map]
        have hid : (Prod.fst ∘ fun x => (x, hs.count x)) = id := rfl
        rw [hid, List.map_id]
        exact List.filter_sublist _
      have s5 : (((most_common 10 hs).filter (fun x => x.2 = c)).map Prod.fst).Sublist
          (((counterItems hs).filter (fun x => x.2 = c)).map Prod.fst) := by
        refine List.Sublist.map Prod.fst ?_
        rw [← s2]
        exact s1
      exact s5.trans s4

/-- C6 witness: the aggregation of a concrete input — `"ai"` twice and
`"ml"` once in month `"2024-03"` — satisfies all three properties. -/
theorem reduce_hashtags_top10_witness :
    (∃ l, ("2024-03", l) ∈
      reduce_hashtags [("2024-03", "ai"), ("2024-03", "ml"), ("2024-03", "ai")]) ∧
    ([("ai", 2), ("ml", 1)].length ≤ 10 ∧
      [("ai", 2), ("ml", 1)].Pairwise (fun a b : String × ℕ => b.2 ≤ a.2) ∧
      ∀ c : ℕ, (([("ai", 2), ("ml", 1)].filter (fun x => x.2 = c)).map Prod.fst).Sublist
        (firstOccurrences (([("2024-03", "ai"), ("2024-03", "ml"), ("2024-03", "ai")].filter
          (fun e : String × String => e.1 = "2024-03")).map Prod.snd))) :=
  ⟨(reduce_hashtags_top10 [("2024-03", "ai"), ("2024-03", "ml"), ("2024-03", "ai")]
      "2024-03").1.mpr (by decide),
   (reduce_hashtags_top10 [("2024-03", "ai"), ("2024-03", "ml"), ("2024-03", "ai")]
      "2024-03").2 [("ai", 2), ("ml", 1)] (by decide)⟩

/-! ### Membership lemmas for the aggregators (C8) -/

theorem mem_foldl_insertDescBy {α β : Type} [LinearOrder β] (key : α → β) (a : α)
    (l : List α) : ∀ acc, a ∈ l.foldl (fun acc x => insertDescBy key x acc) acc ↔
      a ∈ acc ∨ a ∈ l := by
  induction l with
  | nil => intro acc; simp
  | cons x xs ih =>
    intro acc
    rw [List.foldl_cons, ih, mem_insertDescBy]
    rw [List.mem_cons]
    tauto

theorem mem_sortDescBy {α β : Type} [LinearOrder β] (key : α → β) (a : α) (l : List α) :
    a ∈ sortDescBy key l ↔ a ∈ l := by
  unfold sortDescBy
  rw [mem_foldl_insertDescBy]
  simp

theorem mem_counterItems {α : Type} [DecidableEq α] (l : List α) (t : α) (c : ℕ) :
    (t, c) ∈ counterItems l ↔ t ∈ l ∧ c = l.count t := by
  unfold counterItems
  rw [List.mem_map]
  constructor
  · rintro ⟨x, hx, heq⟩
    rw [Prod.ext_iff] at heq
    obtain ⟨h1, h2⟩ := heq
    dsimp at h1 h2
    subst h1
    exact ⟨(mem_firstOccurrences _ _).mp hx, h2.symm⟩
  · rintro ⟨h1, h2⟩
    exact ⟨t, (mem_firstOccurrences _ _).mpr h1, by rw [h2]⟩

/-- C8: for every input to the regional-specialty computation, every
division performed is by a nonzero denominator — a country listed in the
result has a non-empty theme list, and every theme counted locally has a
positive local total, a positive global theme total and a positive global
count — a theme qualifies as a specialty exactly when its local share
exceeds 1.5 times its global share and its local count is at least 2, and
the specialties are sorted by over-representation ratio descending. -/
theorem regional_specialties_sound (themes_by_country tbcity : List (String × List String))
    (country : String) (specs : List Specialty)
    (hmem : (country, specs) ∈
      (analyze_themes_by_region themes_by_country tbcity).regional_specialties) :
    ∃ themes, (country, themes) ∈ themes_by_country ∧ themes ≠ [] ∧
      (∀ t c, (t, c) ∈ counterItems themes →
        0 < themes.length ∧
        0 < ((themes_by_country.map Prod.snd).flatten).length ∧
        0 < ((themes_by_country.map Prod.snd).flatten).count t ∧
        ((∃ sp ∈ specs, sp.theme = t) ↔
          ((c : ℚ) / themes.length >
            (((themes_by_country.map Prod.snd).flatten).count t : ℚ) /
              ((themes_by_country.map Prod.snd).flatten).length * (3/2) ∧ 2 ≤ c))) ∧
      specs.Pairwise (fun a b => b.over_representation ≤ a.over_representation) := by
  unfold analyze_themes_by_region at hmem
  dsimp only at hmem
  rw [List.mem_filterMap] at hmem
  obtain ⟨ct, hct, heq⟩ := hmem
  obtain ⟨cname, themes⟩ := ct
  by_cases hlen : themes.length = 0
  · rw [if_pos hlen] at heq
    exact absurd heq (by simp)
  · rw [if_neg hlen] at heq
    injection heq with heq2
    rw [Prod.ext_iff] at heq2
    obtain ⟨h1, h2⟩ := heq2
    dsimp at h1 h2
    subst h1
    refine ⟨themes, hct, ?_, ?_, ?_⟩
    · exact fun hn => hlen (by rw [hn]; rfl)
    · intro t c htc
      obtain ⟨ht, hc⟩ := (mem_counterItems themes t c).mp htc
      have hlenpos : 0 < themes.length := Nat.pos_of_ne_zero hlen
      have hcount : 0 < themes.count t := List.count_pos_iff.mpr ht
      have hglobal : themes.count t ≤
          ((themes_by_country.map Prod.snd).flatten).count t := by
        rw [List.count_flatten]
        refine List.single_le_sum (fun x _ => Nat.zero_le x) _ ?_
        rw [List.map_map]
        exact List.mem_map.mpr ⟨(cname, themes), hct, rfl⟩
      have hgpos : 0 < ((themes_by_country.map Prod.snd).flatten).count t :=
        lt_of_lt_of_le hcount hglobal
      have hglen : 0 < ((themes_by_country.map Prod.snd).flatten).length :=
        lt_of_lt_of_le hgpos (List.count_le_length _ _)
      refine ⟨hlenpos, hglen, hgpos, ?_⟩
      rw [← h2]
      unfold specialties_for
      dsimp only
      constructor
      · rintro ⟨sp, hsp, hspt⟩
        rw [mem_sortDescBy, List.mem_filterMap] at hsp
        obtain ⟨tc', htc', hg⟩ := hsp
        by_cases hcond : (tc'.2 : ℚ) / themes.length >
            (((themes_by_country.map Prod.snd).flatten).count tc'.1 : ℚ) /
              ((themes_by_country.map Prod.snd).flatten).length * (3/2) ∧ 2 ≤ tc'.2
        · rw [if_pos hcond] at hg
          injection hg with hg2
          obtain ⟨ht', hc'⟩ := (mem_counterItems themes tc'.1 tc'.2).mp htc'
          have htheme : tc'.1 = t := by rw [← hg2] at hspt; exact hspt
          have hceq : tc'.2 = c := by rw [hc', htheme, ← hc]
          rw [htheme, hceq] at hcond
          exact hcond
        · rw [if_neg hcond] at hg
          exact absurd hg (by simp)
      · intro hcond
        refine ⟨⟨t, pyRound ((c : ℚ) / themes.length * 100) 1,
            pyRound ((((themes_by_country.map Prod.snd).flatten).count t : ℚ) /
              ((themes_by_country.map Prod.snd).flatten).length * 100) 1,
            pyRound (((c : ℚ) / themes.length) /
              ((((themes_by_country.map Prod.snd).flatten).count t : ℚ) /
                ((themes_by_country.map Prod.snd).flatten).length)) 2⟩, ?_, rfl⟩
        rw [mem_sortDescBy, List.mem_filterMap]
        refine ⟨(t, c), htc, ?_⟩
        rw [if_pos hcond]
    · rw [← h2]
      unfold specialties_for
      dsimp only
      exact sorted_sortDescBy (fun sp : Specialty => sp.over_representation) _

/-- C8 witness: the soundness law applied to the concrete input with one
country `"France"` whose themes are `["ai", "ai"]` (its theme is not
over-represented relative to itself, so its specialty list is empty). -/
theorem regional_specialties_sound_witness :
    ∃ themes, ("France", themes) ∈ [("France", ["ai", "ai"])] ∧ themes ≠ [] ∧
      (∀ t c, (t, c) ∈ counterItems themes →
        0 < themes.length ∧
        0 < ((([("France", ["ai", "ai"])] :
          List (String × List String)).map Prod.snd).flatten).length ∧
        0 < ((([("France", ["ai", "ai"])] :
          List (String × List String)).map Prod.snd).flatten).count t ∧
        ((∃ sp ∈ ([] : List Specialty), sp.theme = t) ↔
          ((c : ℚ) / themes.length >
            (((([("France", ["ai", "ai"])] :
              List (String × List String)).map Prod.snd).flatten).count t : ℚ) /
              ((([("France", ["ai", "ai"])] :
                List (String × List String)).map Prod.snd).flatten).length * (3/2) ∧
            2 ≤ c))) ∧
      ([] : List Specialty).Pairwise
        (fun a b => b.over_representation ≤ a.over_representation) :=
  regional_specialties_sound [("France", ["ai", "ai"])] [] "France" []
    (by
      unfold analyze_themes_by_region specialties_for
      norm_num [counterItems, firstOccurrences, firstOccurrencesAux, List.filterMap_cons,
        List.count, List.countP, List.countP.go, sortDescBy, List.foldl]
      simp)
